import Mathlib

/-
Verification of the opinion-dynamics feedback engine (Markedslabben/SoMe).

Shallow embedding of the core algorithms:
  * amplification.py : compute_visibility, rank_feed, sample_visible_posts,
    compute_opinion_influence
  * emotions.py      : apply_impact, process_post_for_reader stance inference
  * models.py        : EmotionalState.decay, Opinion.update (dual process,
    backlash, cognitive-investment ratchet), Post.engagement_potential
  * tracking.py      : detect_conversion with one-shot flags
  * sd_equations.py / sd_model.py : SD auxiliary equations and derivatives

Python floats are modelled as real numbers; the random draws (algorithmic
noise, sampling randoms, backlash draw) are passed explicitly so every
function is a deterministic function of its inputs, exactly as the source
computes once the random values are fixed.
-/

namespace OpinionDynamics

/-- Post record from models.py (the fields the feedback engine reads).
`id` stands for the object identity / uuid of the Python object. -/
structure Post where
  id : ℕ
  round_num : ℕ
  emotional_intensity : ℝ
  provocativeness : ℝ
  logical_coherence : ℝ
  consensus_orientation : ℝ
  visibility_score : ℝ

/-- Post.engagement_potential from models.py. -/
noncomputable def engagement_potential (p : Post) : ℝ :=
  p.emotional_intensity * 0.4 + p.provocativeness * 0.4 + (1 - p.logical_coherence) * 0.2

/-- The three amplification weights held by AmplificationAlgorithm. -/
structure AmpWeights where
  emotion_weight : ℝ
  provocative_weight : ℝ
  recency_weight : ℝ

/-- SimulationConfig defaults: emotion_weight=0.4, provocative_weight=0.4,
recency_weight=0.2. -/
noncomputable def defaultWeights : AmpWeights := ⟨0.4, 0.4, 0.2⟩

/-- AmplificationAlgorithm.compute_visibility.  `ν` is the value of the
uniform(0.95, 1.05) noise draw.  `current_round - p.round_num` in ℕ is
exactly Python's `max(0, current_round - post.round_num)`. -/
noncomputable def compute_visibility (w : AmpWeights) (ν : ℝ) (p : Post) (current_round : ℕ) : ℝ :=
  let rounds_old : ℕ := current_round - p.round_num
  let recency_score : ℝ := 1 / (1 + (rounds_old : ℝ) * 0.25)
  let base_visibility : ℝ :=
    w.emotion_weight * p.emotional_intensity +
    w.provocative_weight * p.provocativeness +
    w.recency_weight * recency_score
  let engagement := engagement_potential p
  let engagement_boost := 1 + engagement ^ 2 * 0.6
  base_visibility * engagement_boost * ν

theorem compute_visibility_def (w : AmpWeights) (ν : ℝ) (p : Post) (current_round : ℕ) :
    compute_visibility w ν p current_round =
      (w.emotion_weight * p.emotional_intensity +
       w.provocative_weight * p.provocativeness +
       w.recency_weight * (1 / (1 + ((current_round - p.round_num : ℕ) : ℝ) * 0.25))) *
      (1 + engagement_potential p ^ 2 * 0.6) * ν := rfl

theorem recency_pos (k : ℕ) : (0 : ℝ) < 1 / (1 + (k : ℝ) * 0.25) := by
  have hk : (0 : ℝ) ≤ (k : ℝ) := Nat.cast_nonneg k
  have : (0 : ℝ) < 1 + (k : ℝ) * 0.25 := by nlinarith
  positivity

theorem base_boost_noise_lt {b b' g g' ν : ℝ}
    (hb : 0 < b) (hbb : b < b') (hg : 0 ≤ g) (hgg : g < g') (hν : 0 < ν) :
    b * (1 + g ^ 2 * 0.6) * ν < b' * (1 + g' ^ 2 * 0.6) * ν := by
  have h1 : (1 : ℝ) + g ^ 2 * 0.6 < 1 + g' ^ 2 * 0.6 := by nlinarith
  have h2 : (0 : ℝ) < 1 + g ^ 2 * 0.6 := by positivity
  have h3 := mul_lt_mul'' hbb h1 hb.le h2.le
  exact mul_lt_mul_of_pos_right h3 hν

/-- Claim C1: with the default weights and any fixed noise value in
[0.95, 1.05], compute_visibility is nonnegative for content scores in
[0, 1], and is strictly increasing in emotional_intensity and in
provocativeness when everything else is held fixed. -/
theorem c1_visibility_nonneg_strict_mono
    (e e' pr pr' lc co ν : ℝ) (pround round : ℕ)
    (he : 0 ≤ e) (hpr : 0 ≤ pr) (hlc : lc ≤ 1)
    (hν : 0.95 ≤ ν) :
    0 ≤ compute_visibility defaultWeights ν ⟨0, pround, e, pr, lc, co, 0⟩ round
    ∧ (e < e' →
        compute_visibility defaultWeights ν ⟨0, pround, e, pr, lc, co, 0⟩ round <
        compute_visibility defaultWeights ν ⟨0, pround, e', pr, lc, co, 0⟩ round)
    ∧ (pr < pr' →
        compute_visibility defaultWeights ν ⟨0, pround, e, pr, lc, co, 0⟩ round <
        compute_visibility defaultWeights ν ⟨0, pround, e, pr', lc, co, 0⟩ round) := by
  have hrec := recency_pos (round - pround)
  have hν0 : (0 : ℝ) < ν := lt_of_lt_of_le (by norm_num) hν
  set r : ℝ := 1 / (1 + ((round - pround : ℕ) : ℝ) * 0.25) with hr
  have hbase : (0 : ℝ) < 0.4 * e + 0.4 * pr + 0.2 * r := by nlinarith
  have hgeng : (0 : ℝ) ≤ e * 0.4 + pr * 0.4 + (1 - lc) * 0.2 := by nlinarith
  refine ⟨?_, ?_, ?_⟩
  · rw [compute_visibility_def]
    simp only [defaultWeights, engagement_potential]
    have h2 : (0 : ℝ) ≤ 1 + (e * 0.4 + pr * 0.4 + (1 - lc) * 0.2) ^ 2 * 0.6 := by positivity
    have := mul_nonneg (mul_nonneg hbase.le h2) hν0.le
    calc (0 : ℝ) ≤ (0.4 * e + 0.4 * pr + 0.2 * r) *
          (1 + (e * 0.4 + pr * 0.4 + (1 - lc) * 0.2) ^ 2 * 0.6) * ν := this
      _ = _ := by rw [hr]
  · intro hee
    rw [compute_visibility_def, compute_visibility_def]
    simp only [defaultWeights, engagement_potential, ← hr]
    exact base_boost_noise_lt hbase (by nlinarith) hgeng (by nlinarith) hν0
  · intro hpp
    rw [compute_visibility_def, compute_visibility_def]
    simp only [defaultWeights, engagement_potential, ← hr]
    exact base_boost_noise_lt hbase (by nlinarith) hgeng (by nlinarith) hν0

/-- Witness for C1 at concrete scores. -/
theorem c1_visibility_nonneg_strict_mono_witness :
    0 ≤ compute_visibility defaultWeights 1 ⟨0, 1, 0.3, 0.5, 0.5, 0.5, 0⟩ 3
    ∧ compute_visibility defaultWeights 1 ⟨0, 1, 0.3, 0.5, 0.5, 0.5, 0⟩ 3 <
      compute_visibility defaultWeights 1 ⟨0, 1, 0.8, 0.5, 0.5, 0.5, 0⟩ 3 := by
  obtain ⟨h0, hm, -⟩ := c1_visibility_nonneg_strict_mono 0.3 0.8 0.5 0.6 0.5 0.5 1 1 3
    (by norm_num) (by norm_num) (by norm_num) (by norm_num)
  exact ⟨h0, hm (by norm_num)⟩

/-- EmotionalState from models.py. -/
structure EmotionalState where
  arousal : ℝ
  valence : ℝ
  engagement : ℝ
  anger : ℝ
  anxiety : ℝ
  arousal_history : List ℝ

/-- EmotionalImpact record from emotions.py. -/
structure EmotionalImpact where
  arousal_delta : ℝ
  anger_delta : ℝ
  valence_delta : ℝ
  engagement_delta : ℝ
  trust_delta : ℝ

/-- EmotionalEngine.apply_impact (emotions.py): clamps arousal, anger,
valence, engagement after adding the deltas.  The trust delta goes to the
reader's per-author trust map, not to the emotional state. -/
noncomputable def apply_impact (s : EmotionalState) (i : EmotionalImpact) : EmotionalState :=
  { s with
    arousal := max 0 (min 1 (s.arousal + i.arousal_delta))
    anger := max 0 (min 1 (s.anger + i.anger_delta))
    valence := max (-1) (min 1 (s.valence + i.valence_delta))
    engagement := max 0 (min 1 (s.engagement + i.engagement_delta)) }

/-- EmotionalState.decay (models.py). -/
noncomputable def emotional_decay (s : EmotionalState) (rate : ℝ) : EmotionalState :=
  let arousal' := s.arousal - (s.arousal - 0.4) * rate
  { arousal := arousal'
    anger := max 0 (s.anger - rate * 1.5)
    engagement := max 0.3 (s.engagement - rate * 0.5)
    valence := s.valence * (1 - rate * 0.5)
    anxiety := s.anxiety
    arousal_history := s.arousal_history ++ [arousal'] }

/-- The two operations the simulation loop ever applies to an agent's
emotional state (simulation.py run_round steps 4 and 5). -/
inductive EmoOp
  | impact (i : EmotionalImpact)
  | decayStep (rate : ℝ)

noncomputable def emo_step (s : EmotionalState) : EmoOp → EmotionalState
  | .impact i => apply_impact s i
  | .decayStep rate => emotional_decay s rate

/-- Claim C10: the anxiety field is never written after initialization:
apply_impact and the per-round decay both leave it unchanged, hence any
sequence of the simulation's emotional-state operations leaves anxiety
equal to its initial value. -/
theorem c10_anxiety_never_written :
    (∀ (s : EmotionalState) (i : EmotionalImpact), (apply_impact s i).anxiety = s.anxiety)
    ∧ (∀ (s : EmotionalState) (rate : ℝ), (emotional_decay s rate).anxiety = s.anxiety)
    ∧ (∀ (s : EmotionalState) (ops : List EmoOp),
        (ops.foldl emo_step s).anxiety = s.anxiety) := by
  refine ⟨fun s i => rfl, fun s rate => rfl, fun s ops => ?_⟩
  induction ops generalizing s with
  | nil => rfl
  | cons op rest ih =>
    have hstep : (emo_step s op).anxiety = s.anxiety := by
      cases op with
      | impact i => rfl
      | decayStep rate => rfl
    calc ((op :: rest).foldl emo_step s).anxiety
        = (rest.foldl emo_step (emo_step s op)).anxiety := rfl
      _ = (emo_step s op).anxiety := ih (emo_step s op)
      _ = s.anxiety := hstep

/-- Discrete post-stance classification. -/
inductive Stance
  | contrarian
  | consensus
  | neutral
deriving DecidableEq

/-- Stance class assigned by EmotionalEngine.process_post_for_reader
(emotions.py lines 119-127). -/
noncomputable def reader_stance (p : Post) : Stance :=
  if p.provocativeness > 0.5 then .contrarian
  else if p.consensus_orientation > 0.6 then .consensus
  else .neutral

/-- The post_opinion value assigned by the same if-chain of
process_post_for_reader. -/
noncomputable def reader_post_opinion (p : Post) : ℝ :=
  if p.provocativeness > 0.5 then -0.7
  else if p.consensus_orientation > 0.6 then 0.6
  else 0

/-- Stance class assigned inside compute_opinion_influence
(amplification.py lines 159-168); contrarian corresponds to
is_contrarian = True. -/
noncomputable def influence_stance (p : Post) : Stance :=
  if p.provocativeness > 0.5 ∧ p.provocativeness > p.consensus_orientation then .contrarian
  else if p.consensus_orientation > 0.5 then .consensus
  else .neutral

/-- The post_position value assigned by the same if-chain of
compute_opinion_influence. -/
noncomputable def influence_post_position (p : Post) : ℝ :=
  if p.provocativeness > 0.5 ∧ p.provocativeness > p.consensus_orientation then
    -0.7 - p.provocativeness * 0.3
  else if p.consensus_orientation > 0.5 then 0.5 + p.consensus_orientation * 0.3
  else 0

/-- Claim C7 counterexample: the post with provocativeness 0.6 and
consensus_orientation 0.9 (all scores in [0,1]) is classified
contrarian-leaning with negative position by process_post_for_reader but
consensus-leaning with positive position by compute_opinion_influence,
so the two stance-inference sites do not implement the same heuristic. -/
theorem c7_counterexample :
    reader_stance ⟨0, 0, 0.5, 0.6, 0.5, 0.9, 0⟩ = Stance.contrarian
    ∧ influence_stance ⟨0, 0, 0.5, 0.6, 0.5, 0.9, 0⟩ = Stance.consensus
    ∧ reader_stance ⟨0, 0, 0.5, 0.6, 0.5, 0.9, 0⟩ ≠
        influence_stance ⟨0, 0, 0.5, 0.6, 0.5, 0.9, 0⟩
    ∧ reader_post_opinion ⟨0, 0, 0.5, 0.6, 0.5, 0.9, 0⟩ < 0
    ∧ 0 < influence_post_position ⟨0, 0, 0.5, 0.6, 0.5, 0.9, 0⟩ := by
  have h1 : reader_stance ⟨0, 0, 0.5, 0.6, 0.5, 0.9, 0⟩ = Stance.contrarian := by
    unfold reader_stance
    norm_num
  have h2 : influence_stance ⟨0, 0, 0.5, 0.6, 0.5, 0.9, 0⟩ = Stance.consensus := by
    unfold influence_stance
    norm_num
  have h3 : reader_post_opinion ⟨0, 0, 0.5, 0.6, 0.5, 0.9, 0⟩ = -0.7 := by
    unfold reader_post_opinion
    norm_num
  have h4 : influence_post_position ⟨0, 0, 0.5, 0.6, 0.5, 0.9, 0⟩ = 0.5 + 0.9 * 0.3 := by
    unfold influence_post_position
    norm_num
  refine ⟨h1, h2, ?_, ?_, ?_⟩
  · rw [h1, h2]
    decide
  · rw [h3]
    norm_num
  · rw [h4]
    norm_num

/-- Claim C7 amended: process_post_for_reader classifies by
`provocativeness > 0.5`, then `consensus_orientation > 0.6`;
compute_opinion_influence classifies contrarian only when additionally
`provocativeness > consensus_orientation`, and uses the consensus
threshold 0.5.  The two sites assign the same class if and only if the
post is not in one of the two disagreement regions
(`provocativeness > 0.5` with `consensus_orientation ≥ provocativeness`,
or `provocativeness ≤ 0.5` with `consensus_orientation` in (0.5, 0.6]);
whenever the classes agree the two inferred positions have the same sign. -/
theorem c7_amended (p : Post) :
    (reader_stance p = influence_stance p ↔
      (¬(p.provocativeness > 0.5 ∧ p.consensus_orientation ≥ p.provocativeness)
       ∧ ¬(p.provocativeness ≤ 0.5 ∧ 0.5 < p.consensus_orientation
            ∧ p.consensus_orientation ≤ 0.6)))
    ∧ (reader_stance p = influence_stance p →
        (reader_post_opinion p < 0 ∧ influence_post_position p < 0)
        ∨ (0 < reader_post_opinion p ∧ 0 < influence_post_position p)
        ∨ (reader_post_opinion p = 0 ∧ influence_post_position p = 0)) := by
  rcases lt_or_le 0.5 p.provocativeness with hA | hA
  · rcases lt_or_le p.consensus_orientation p.provocativeness with hc | hc
    · have hr : reader_stance p = Stance.contrarian := by
        unfold reader_stance
        rw [if_pos hA]
      have hrp : reader_post_opinion p = -0.7 := by
        unfold reader_post_opinion
        rw [if_pos hA]
      have hi : influence_stance p = Stance.contrarian := by
        unfold influence_stance
        rw [if_pos ⟨hA, hc⟩]
      have hip : influence_post_position p = -0.7 - p.provocativeness * 0.3 := by
        unfold influence_post_position
        rw [if_pos ⟨hA, hc⟩]
      rw [hr, hrp, hi, hip]
      refine ⟨?_, fun _ => Or.inl ⟨by norm_num, by nlinarith⟩⟩
      simp only [true_iff]
      exact ⟨fun h => absurd h.2 (not_le.mpr hc), fun h => absurd hA (not_lt.mpr h.1)⟩
    · have hr : reader_stance p = Stance.contrarian := by
        unfold reader_stance
        rw [if_pos hA]
      have hCfalse : ¬(p.provocativeness > 0.5 ∧ p.provocativeness > p.consensus_orientation) :=
        fun h => absurd hc (not_le.mpr h.2)
      have hc5 : p.consensus_orientation > 0.5 := lt_of_lt_of_le hA hc
      have hi : influence_stance p = Stance.consensus := by
        unfold influence_stance
        rw [if_neg hCfalse, if_pos hc5]
      rw [hr, hi]
      have hne : Stance.contrarian ≠ Stance.consensus := by decide
      refine ⟨?_, fun h => absurd h hne⟩
      constructor
      · intro h
        exact absurd h hne
      · rintro ⟨h, -⟩
        exact absurd ⟨hA, hc⟩ h
  · have hrA : ¬(p.provocativeness > 0.5) := not_lt.mpr hA
    have hCfalse : ¬(p.provocativeness > 0.5 ∧ p.provocativeness > p.consensus_orientation) :=
      fun h => absurd h.1 hrA
    rcases lt_or_le 0.6 p.consensus_orientation with hB | hB
    · have hc5 : p.consensus_orientation > 0.5 := lt_trans (by norm_num) hB
      have hr : reader_stance p = Stance.consensus := by
        unfold reader_stance
        rw [if_neg hrA, if_pos hB]
      have hrp : reader_post_opinion p = 0.6 := by
        unfold reader_post_opinion
        rw [if_neg hrA, if_pos hB]
      have hi : influence_stance p = Stance.consensus := by
        unfold influence_stance
        rw [if_neg hCfalse, if_pos hc5]
      have hip : influence_post_position p = 0.5 + p.consensus_orientation * 0.3 := by
        unfold influence_post_position
        rw [if_neg hCfalse, if_pos hc5]
      rw [hr, hrp, hi, hip]
      refine ⟨?_, fun _ => Or.inr (Or.inl ⟨by norm_num, by nlinarith⟩)⟩
      simp only [true_iff]
      exact ⟨fun h => absurd h.1 hrA, fun h => absurd hB (not_lt.mpr h.2.2)⟩
    · have hrB : ¬(p.consensus_orientation > 0.6) := not_lt.mpr hB
      have hr : reader_stance p = Stance.neutral := by
        unfold reader_stance
        rw [if_neg hrA, if_neg hrB]
      have hrp : reader_post_opinion p = 0 := by
        unfold reader_post_opinion
        rw [if_neg hrA, if_neg hrB]
      rcases lt_or_le 0.5 p.consensus_orientation with hD | hD
      · have hi : influence_stance p = Stance.consensus := by
          unfold influence_stance
          rw [if_neg hCfalse, if_pos hD]
        rw [hr, hi]
        have hne : Stance.neutral ≠ Stance.consensus := by decide
        refine ⟨?_, fun h => absurd h hne⟩
        constructor
        · intro h
          exact absurd h hne
        · rintro ⟨-, h⟩
          exact absurd ⟨hA, hD, hB⟩ h
      · have hDfalse : ¬(p.consensus_orientation > 0.5) := not_lt.mpr hD
        have hi : influence_stance p = Stance.neutral := by
          unfold influence_stance
          rw [if_neg hCfalse, if_neg hDfalse]
        have hip : influence_post_position p = 0 := by
          unfold influence_post_position
          rw [if_neg hCfalse, if_neg hDfalse]
        rw [hr, hrp, hi, hip]
        refine ⟨?_, fun _ => Or.inr (Or.inr ⟨rfl, rfl⟩)⟩
        simp only [true_iff]
        exact ⟨fun h => absurd h.1 hrA, fun h => absurd h.2.1 (not_lt.mpr hD)⟩

/-- Witness for the amended C7 at a concrete agreeing post. -/
theorem c7_amended_witness :
    reader_stance ⟨0, 0, 0.5, 0.8, 0.5, 0.4, 0⟩ =
        influence_stance ⟨0, 0, 0.5, 0.8, 0.5, 0.4, 0⟩
    ∧ ((reader_post_opinion ⟨0, 0, 0.5, 0.8, 0.5, 0.4, 0⟩ < 0 ∧
          influence_post_position ⟨0, 0, 0.5, 0.8, 0.5, 0.4, 0⟩ < 0)
        ∨ (0 < reader_post_opinion ⟨0, 0, 0.5, 0.8, 0.5, 0.4, 0⟩ ∧
            0 < influence_post_position ⟨0, 0, 0.5, 0.8, 0.5, 0.4, 0⟩)
        ∨ (reader_post_opinion ⟨0, 0, 0.5, 0.8, 0.5, 0.4, 0⟩ = 0 ∧
            influence_post_position ⟨0, 0, 0.5, 0.8, 0.5, 0.4, 0⟩ = 0)) := by
  obtain ⟨hiff, hsign⟩ := c7_amended ⟨0, 0, 0.5, 0.8, 0.5, 0.4, 0⟩
  have hagree : reader_stance ⟨0, 0, 0.5, 0.8, 0.5, 0.4, 0⟩ =
      influence_stance ⟨0, 0, 0.5, 0.8, 0.5, 0.4, 0⟩ := by
    apply hiff.mpr
    norm_num
  exact ⟨hagree, hsign hagree⟩

/-- Direction tag of a ConversionEvent. -/
inductive ConvDir
  | toContrarian
  | toConsensus
deriving DecidableEq

/-- The two one-way conversion flags carried by an Agent (models.py). -/
structure ConvFlags where
  toContrarian : Bool
  toConsensus : Bool

/-- The data one call of detect_conversion reads from the agent:
role, position-history length and its last two entries. -/
structure ConvObs where
  isNeutral : Bool
  histLen : ℕ
  prev : ℝ
  curr : ℝ

/-- detect_conversion from tracking.py: returns the emitted event direction
(if any) together with the updated flags. -/
noncomputable def detect_conversion (flags : ConvFlags) (o : ConvObs) :
    Option ConvDir × ConvFlags :=
  if o.histLen < 2 then (none, flags)
  else if o.isNeutral = false then (none, flags)
  else if o.prev ≥ -0.3 ∧ o.curr < -0.3 ∧ flags.toContrarian = false then
    (some .toContrarian, { flags with toContrarian := true })
  else if o.prev ≤ 0.3 ∧ o.curr > 0.3 ∧ flags.toConsensus = false then
    (some .toConsensus, { flags with toConsensus := true })
  else (none, flags)

/-- A whole run of conversion detection for one agent: the sequence of
detect_conversion calls the simulation makes for that agent, with the
flags threaded through, collecting the emitted events. -/
noncomputable def detect_run (flags : ConvFlags) : List ConvObs → List ConvDir
  | [] => []
  | o :: rest =>
    match detect_conversion flags o with
    | (some d, flags') => d :: detect_run flags' rest
    | (none, flags') => detect_run flags' rest

theorem detect_conversion_contrarian_flag (flags : ConvFlags) (o : ConvObs)
    (h : flags.toContrarian = true) :
    (detect_conversion flags o).1 ≠ some ConvDir.toContrarian
    ∧ (detect_conversion flags o).2.toContrarian = true := by
  unfold detect_conversion
  split_ifs with h1 h2 h3 h4
  · exact ⟨by simp, h⟩
  · exact ⟨by simp, h⟩
  · exact absurd h3.2.2 (by simp [h])
  · exact ⟨by simp, h⟩
  · exact ⟨by simp, h⟩

theorem detect_conversion_consensus_flag (flags : ConvFlags) (o : ConvObs)
    (h : flags.toConsensus = true) :
    (detect_conversion flags o).1 ≠ some ConvDir.toConsensus
    ∧ (detect_conversion flags o).2.toConsensus = true := by
  unfold detect_conversion
  split_ifs with h1 h2 h3 h4
  · exact ⟨by simp, h⟩
  · exact ⟨by simp, h⟩
  · exact ⟨by simp, h⟩
  · exact absurd h4.2.2 (by simp [h])
  · exact ⟨by simp, h⟩

theorem detect_run_cons_some (flags flags' : ConvFlags) (o : ConvObs) (d : ConvDir)
    (rest : List ConvObs) (h : detect_conversion flags o = (some d, flags')) :
    detect_run flags (o :: rest) = d :: detect_run flags' rest := by
  rw [detect_run, h]

theorem detect_run_cons_none (flags flags' : ConvFlags) (o : ConvObs)
    (rest : List ConvObs) (h : detect_conversion flags o = (none, flags')) :
    detect_run flags (o :: rest) = detect_run flags' rest := by
  rw [detect_run, h]

theorem detect_run_contrarian_suppressed (trace : List ConvObs) (flags : ConvFlags)
    (h : flags.toContrarian = true) :
    (detect_run flags trace).count ConvDir.toContrarian = 0 := by
  induction trace generalizing flags with
  | nil => rfl
  | cons o rest ih =>
    obtain ⟨hne, hkeep⟩ := detect_conversion_contrarian_flag flags o h
    rcases hd : (detect_conversion flags o).1 with - | d
    · rw [detect_run_cons_none flags _ o rest (Prod.ext hd rfl)]
      exact ih _ hkeep
    · rw [detect_run_cons_some flags _ o d rest (Prod.ext hd rfl)]
      have hdne : ConvDir.toContrarian ≠ d := by
        intro hdc
        exact hne (by rw [hd, ← hdc])
      rw [List.count_cons_of_ne hdne]
      exact ih _ hkeep

theorem detect_run_consensus_suppressed (trace : List ConvObs) (flags : ConvFlags)
    (h : flags.toConsensus = true) :
    (detect_run flags trace).count ConvDir.toConsensus = 0 := by
  induction trace generalizing flags with
  | nil => rfl
  | cons o rest ih =>
    obtain ⟨hne, hkeep⟩ := detect_conversion_consensus_flag flags o h
    rcases hd : (detect_conversion flags o).1 with - | d
    · rw [detect_run_cons_none flags _ o rest (Prod.ext hd rfl)]
      exact ih _ hkeep
    · rw [detect_run_cons_some flags _ o d rest (Prod.ext hd rfl)]
      have hdne : ConvDir.toConsensus ≠ d := by
        intro hdc
        exact hne (by rw [hd, ← hdc])
      rw [List.count_cons_of_ne hdne]
      exact ih _ hkeep

theorem detect_conversion_emit_sets_flag (flags : ConvFlags) (o : ConvObs) :
    (detect_conversion flags o).1 = some ConvDir.toContrarian →
      (detect_conversion flags o).2.toContrarian = true := by
  unfold detect_conversion
  split_ifs <;> simp

theorem detect_conversion_emit_sets_flag_s (flags : ConvFlags) (o : ConvObs) :
    (detect_conversion flags o).1 = some ConvDir.toConsensus →
      (detect_conversion flags o).2.toConsensus = true := by
  unfold detect_conversion
  split_ifs <;> simp

theorem detect_run_contrarian_le_one (trace : List ConvObs) (flags : ConvFlags) :
    (detect_run flags trace).count ConvDir.toContrarian ≤ 1 := by
  induction trace generalizing flags with
  | nil => exact Nat.zero_le 1
  | cons o rest ih =>
    rcases hd : (detect_conversion flags o).1 with - | d
    · rw [detect_run_cons_none flags _ o rest (Prod.ext hd rfl)]
      exact ih _
    · rw [detect_run_cons_some flags _ o d rest (Prod.ext hd rfl)]
      rcases hdc : d with - | -
      · have hset : (detect_conversion flags o).2.toContrarian = true :=
          detect_conversion_emit_sets_flag flags o (by rw [hd, hdc])
        have hzero := detect_run_contrarian_suppressed rest _ hset
        rw [List.count_cons_self, hzero]
      · have hdne : ConvDir.toContrarian ≠ ConvDir.toConsensus := by decide
        rw [List.count_cons_of_ne hdne]
        exact ih _


theorem detect_run_consensus_le_one (trace : List ConvObs) (flags : ConvFlags) :
    (detect_run flags trace).count ConvDir.toConsensus ≤ 1 := by
  induction trace generalizing flags with
  | nil => exact Nat.zero_le 1
  | cons o rest ih =>
    rcases hd : (detect_conversion flags o).1 with - | d
    · rw [detect_run_cons_none flags _ o rest (Prod.ext hd rfl)]
      exact ih _
    · rw [detect_run_cons_some flags _ o d rest (Prod.ext hd rfl)]
      rcases hdc : d with - | -
      · have hdne : ConvDir.toConsensus ≠ ConvDir.toContrarian := by decide
        rw [List.count_cons_of_ne hdne]
        exact ih _
      · have hset : (detect_conversion flags o).2.toConsensus = true :=
          detect_conversion_emit_sets_flag_s flags o (by rw [hd, hdc])
        have hzero := detect_run_consensus_suppressed rest _ hset
        rw [List.count_cons_self, hzero]

/-- Claim C3: starting from unset flags, any sequence of detection calls for
a neutral agent records at most one to_contrarian and at most one
to_consensus event, however often the position crosses the thresholds; in
particular an agent oscillating across -0.3 three times yields exactly one
to_contrarian event. -/
theorem c3_conversion_one_shot :
    (∀ trace : List ConvObs,
        (detect_run ⟨false, false⟩ trace).count ConvDir.toContrarian ≤ 1
        ∧ (detect_run ⟨false, false⟩ trace).count ConvDir.toConsensus ≤ 1)
    ∧ detect_run ⟨false, false⟩
        [⟨true, 2, 0, -0.5⟩, ⟨true, 2, -0.5, 0⟩, ⟨true, 2, 0, -0.5⟩,
         ⟨true, 2, -0.5, 0⟩, ⟨true, 2, 0, -0.5⟩] = [ConvDir.toContrarian] := by
  constructor
  · intro trace
    exact ⟨detect_run_contrarian_le_one trace _, detect_run_consensus_le_one trace _⟩
  · have h1 : detect_conversion ⟨false, false⟩ ⟨true, 2, 0, -0.5⟩ =
        (some ConvDir.toContrarian, ⟨true, false⟩) := by
      unfold detect_conversion
      norm_num
    have h2 : detect_conversion ⟨true, false⟩ ⟨true, 2, -0.5, 0⟩ =
        (none, ⟨true, false⟩) := by
      unfold detect_conversion
      norm_num
    have h3 : detect_conversion ⟨true, false⟩ ⟨true, 2, 0, -0.5⟩ =
        (none, ⟨true, false⟩) := by
      unfold detect_conversion
      norm_num
    rw [detect_run_cons_some _ _ _ _ _ h1, detect_run_cons_none _ _ _ _ h2,
      detect_run_cons_none _ _ _ _ h3, detect_run_cons_none _ _ _ _ h2,
      detect_run_cons_none _ _ _ _ h3]
    rfl

/-- PersonalityTraits from models.py. -/
structure PersonalityTraits where
  emotional_susceptibility : ℝ
  analytical_weight : ℝ
  social_proof_sensitivity : ℝ
  change_rate : ℝ
  reversal_resistance : ℝ

/-- Default-constructed PersonalityTraits (every trait 1.0). -/
noncomputable def defaultTraits : PersonalityTraits := ⟨1, 1, 1, 1, 1⟩

/-- calculate_processing_mode from models.py. -/
noncomputable def calculate_processing_mode
    (agent_arousal agent_analytical_weight debate_temperature : ℝ) : ℝ :=
  max 0.1 (agent_analytical_weight - debate_temperature * 0.4 - agent_arousal * 0.3)

/-- Python sign computation used in Opinion.update:
`-1 if x < 0 else (1 if x > 0 else 0)`. -/
noncomputable def pySign (x : ℝ) : ℝ := if x < 0 then -1 else if x > 0 then 1 else 0

theorem pySign_neg {x : ℝ} (h : x < 0) : pySign x = -1 := if_pos h

theorem pySign_pos {x : ℝ} (h : 0 < x) : pySign x = 1 := by
  unfold pySign
  rw [if_neg (not_lt.mpr h.le), if_pos h]

theorem pySign_zero {x : ℝ} (h : x = 0) : pySign x = 0 := by
  unfold pySign
  rw [h]
  norm_num

/-- Backlash step of Opinion.update (models.py lines 376-383).  `r` is the
random.random() draw; the flip happens when the draw is below the backlash
probability 0.3 * system2_capacity * (2 - emotional_susceptibility). -/
noncomputable def backlash_adjust (influence emotional_impact : ℝ)
    (is_contrarian_source : Bool) (system2_capacity : ℝ)
    (traits : PersonalityTraits) (r : ℝ) : ℝ :=
  if emotional_impact > 0.8 ∧ is_contrarian_source = true
      ∧ r < 0.3 * system2_capacity * (2 - traits.emotional_susceptibility) then
    -influence * 0.5
  else influence

/-- Cognitive-investment ratchet of Opinion.update (models.py lines
385-415): returns (effective_influence, new cognitive_investment,
new investment_direction). -/
noncomputable def cognitive_ratchet (influence source_trust : ℝ)
    (traits : PersonalityTraits) (investment direction : ℝ) : ℝ × ℝ × ℝ :=
  let influence_sign := pySign influence
  let investment_sign := pySign direction
  if influence_sign ≠ 0 ∧ investment_sign ≠ 0 ∧ influence_sign ≠ investment_sign then
    let base_resistance := Real.exp (-investment * 2.0)
    let reversal_resistance := base_resistance ^ traits.reversal_resistance
    let effective_influence := influence * reversal_resistance
    let erosion_rate := 0.02 / traits.reversal_resistance
    (effective_influence, max 0 (investment - |influence| * erosion_rate), direction)
  else
    let investment_gain := |influence| * source_trust * 0.8 * traits.reversal_resistance
    let investment' := min 2.0 (investment + investment_gain)
    let direction' :=
      if influence_sign ≠ 0 then direction * 0.8 + influence_sign * 0.2 else direction
    (influence, investment', direction')

/-- Opinion record from models.py. -/
structure Opinion where
  position : ℝ
  confidence : ℝ
  stability : ℝ
  cognitive_investment : ℝ
  investment_direction : ℝ
  position_history : List ℝ

/-- Opinion.update from models.py: returns the updated opinion together
with the actual applied change (new position minus old position). -/
noncomputable def opinion_update (o : Opinion) (influence source_trust emotional_impact : ℝ)
    (is_contrarian_source : Bool) (logical_coherence : ℝ) (traits : PersonalityTraits)
    (debate_temperature agent_arousal r : ℝ) : Opinion × ℝ :=
  let system2_capacity :=
    calculate_processing_mode agent_arousal traits.analytical_weight debate_temperature
  let system1_weight := 1 - system2_capacity
  let susceptibility0 := (1 - o.confidence * 0.4) * (1 - o.stability * 0.3)
  let emotional_effectiveness := emotional_impact * traits.emotional_susceptibility
  let analytical_effectiveness := logical_coherence * traits.analytical_weight
  let content_effectiveness :=
    system1_weight * emotional_effectiveness + system2_capacity * analytical_effectiveness
  let susceptibility :=
    susceptibility0 * (1 + system1_weight * emotional_impact * 0.4) * traits.change_rate
  let influence1 :=
    backlash_adjust influence emotional_impact is_contrarian_source system2_capacity traits r
  let rat := cognitive_ratchet influence1 source_trust traits
    o.cognitive_investment o.investment_direction
  let delta := rat.1 * source_trust * susceptibility * content_effectiveness * 0.15
  let new_position := max (-1) (min 1 (o.position + delta))
  ({ position := new_position
     confidence := o.confidence
     stability := min 0.9 (o.stability + 0.01)
     cognitive_investment := rat.2.1
     investment_direction := rat.2.2
     position_history := o.position_history ++ [new_position] },
   new_position - o.position)

/-- Claim C4: the cognitive-investment ratchet.  Reversal (influence sign
nonzero and opposite the stored direction): effective influence is
influence * (exp(-investment*2))^reversal_resistance, the investment erodes
by |influence| * (0.02/reversal_resistance) floored at 0, direction
unchanged.  Reinforcement (signs agree, or no prior direction): influence
passes through unchanged, the investment grows by
|influence| * source_trust * 0.8 * reversal_resistance capped at 2.0, and
the direction becomes 0.8*old + 0.2*sign(influence). -/
theorem c4_cognitive_ratchet (influence source_trust : ℝ) (traits : PersonalityTraits)
    (inv dir : ℝ) :
    (((influence < 0 ∧ 0 < dir) ∨ (0 < influence ∧ dir < 0)) →
      cognitive_ratchet influence source_trust traits inv dir =
        (influence * Real.exp (-inv * 2.0) ^ traits.reversal_resistance,
         max 0 (inv - |influence| * (0.02 / traits.reversal_resistance)),
         dir))
    ∧ (((influence < 0 ∧ dir < 0) ∨ (0 < influence ∧ 0 < dir) ∨ dir = 0) →
      cognitive_ratchet influence source_trust traits inv dir =
        (influence,
         min 2.0 (inv + |influence| * source_trust * 0.8 * traits.reversal_resistance),
         dir * 0.8 + pySign influence * 0.2)) := by
  constructor
  · rintro (⟨hi, hd⟩ | ⟨hi, hd⟩)
    · have hsi := pySign_neg hi
      have hsd := pySign_pos hd
      unfold cognitive_ratchet
      rw [hsi, hsd]
      rw [if_pos (show (-1 : ℝ) ≠ 0 ∧ (1 : ℝ) ≠ 0 ∧ (-1 : ℝ) ≠ 1 by norm_num)]
    · have hsi := pySign_pos hi
      have hsd := pySign_neg hd
      unfold cognitive_ratchet
      rw [hsi, hsd]
      rw [if_pos (show (1 : ℝ) ≠ 0 ∧ (-1 : ℝ) ≠ 0 ∧ (1 : ℝ) ≠ -1 by norm_num)]
  · rintro (⟨hi, hd⟩ | ⟨hi, hd⟩ | hd)
    · have hsi := pySign_neg hi
      have hsd := pySign_neg hd
      unfold cognitive_ratchet
      rw [hsi, hsd]
      rw [if_neg (show ¬((-1 : ℝ) ≠ 0 ∧ (-1 : ℝ) ≠ 0 ∧ (-1 : ℝ) ≠ -1) by norm_num)]
      rw [if_pos (show (-1 : ℝ) ≠ 0 by norm_num)]
    · have hsi := pySign_pos hi
      have hsd := pySign_pos hd
      unfold cognitive_ratchet
      rw [hsi, hsd]
      rw [if_neg (show ¬((1 : ℝ) ≠ 0 ∧ (1 : ℝ) ≠ 0 ∧ (1 : ℝ) ≠ 1) by norm_num)]
      rw [if_pos (show (1 : ℝ) ≠ 0 by norm_num)]
    · have hsd := pySign_zero hd
      rcases lt_trichotomy influence 0 with hi | hi | hi
      · have hsi := pySign_neg hi
        unfold cognitive_ratchet
        rw [hsi, hsd]
        rw [if_neg (show ¬((-1 : ℝ) ≠ 0 ∧ (0 : ℝ) ≠ 0 ∧ (-1 : ℝ) ≠ 0) by norm_num)]
        rw [if_pos (show (-1 : ℝ) ≠ 0 by norm_num)]
      · have hsi := pySign_zero hi
        unfold cognitive_ratchet
        rw [hsi, hsd]
        rw [if_neg (show ¬((0 : ℝ) ≠ 0 ∧ (0 : ℝ) ≠ 0 ∧ (0 : ℝ) ≠ 0) by norm_num)]
        rw [if_neg (show ¬((0 : ℝ) ≠ 0) by norm_num), hd]
        norm_num
      · have hsi := pySign_pos hi
        unfold cognitive_ratchet
        rw [hsi, hsd]
        rw [if_neg (show ¬((1 : ℝ) ≠ 0 ∧ (0 : ℝ) ≠ 0 ∧ (1 : ℝ) ≠ 0) by norm_num)]
        rw [if_pos (show (1 : ℝ) ≠ 0 by norm_num)]

/-- Witness for C4: one reversal input and one reinforcement input. -/
theorem c4_cognitive_ratchet_witness :
    cognitive_ratchet (-0.5) 0.5 defaultTraits 1 0.6 =
      ((-0.5) * Real.exp (-(1 : ℝ) * 2.0) ^ defaultTraits.reversal_resistance,
       max 0 (1 - |(-0.5 : ℝ)| * (0.02 / defaultTraits.reversal_resistance)),
       0.6)
    ∧ cognitive_ratchet 0.5 0.5 defaultTraits 1 0.6 =
      (0.5,
       min 2.0 (1 + |(0.5 : ℝ)| * 0.5 * 0.8 * defaultTraits.reversal_resistance),
       0.6 * 0.8 + pySign 0.5 * 0.2) := by
  constructor
  · exact (c4_cognitive_ratchet (-0.5) 0.5 defaultTraits 1 0.6).1
      (Or.inl ⟨by norm_num, by norm_num⟩)
  · exact (c4_cognitive_ratchet 0.5 0.5 defaultTraits 1 0.6).2
      (Or.inr (Or.inl ⟨by norm_num, by norm_num⟩))

/-- Claim C6 counterexample: emotional_impact 0.9 > 0.8, contrarian source,
backlash draw 0 below the probability 0.3 * 0.65 * (2 - 1); the influence 1
becomes -0.5, not the sign-flipped original -1.  The code flips the sign
AND halves the magnitude (`influence = -influence * 0.5`). -/
theorem c6_counterexample :
    (0.9 : ℝ) > 0.8
    ∧ (0 : ℝ) < 0.3 * 0.65 * (2 - defaultTraits.emotional_susceptibility)
    ∧ backlash_adjust 1 0.9 true 0.65 defaultTraits 0 = -0.5
    ∧ backlash_adjust 1 0.9 true 0.65 defaultTraits 0 ≠ -1 := by
  have hval : backlash_adjust 1 0.9 true 0.65 defaultTraits 0 = -0.5 := by
    unfold backlash_adjust
    rw [if_pos]
    · norm_num
    · refine ⟨by norm_num, rfl, ?_⟩
      show (0 : ℝ) < 0.3 * 0.65 * (2 - defaultTraits.emotional_susceptibility)
      simp only [defaultTraits]
      norm_num
  refine ⟨by norm_num, ?_, hval, ?_⟩
  · simp only [defaultTraits]
    norm_num
  · rw [hval]
    norm_num

/-- Claim C6 amended: when emotional_impact > 0.8, the source is contrarian
and the draw is below 0.3 * system2_capacity * (2 - emotional_susceptibility),
the influence used by the rest of the update is -influence * 0.5 (sign
flipped and magnitude halved); in every other case the influence passes
through unchanged. -/
theorem c6_backlash_flip_and_halve (influence emotional_impact : ℝ)
    (is_contrarian_source : Bool) (system2_capacity : ℝ)
    (traits : PersonalityTraits) (r : ℝ) :
    ((emotional_impact > 0.8 ∧ is_contrarian_source = true
        ∧ r < 0.3 * system2_capacity * (2 - traits.emotional_susceptibility)) →
      backlash_adjust influence emotional_impact is_contrarian_source
          system2_capacity traits r = -influence * 0.5)
    ∧ (¬(emotional_impact > 0.8 ∧ is_contrarian_source = true
        ∧ r < 0.3 * system2_capacity * (2 - traits.emotional_susceptibility)) →
      backlash_adjust influence emotional_impact is_contrarian_source
          system2_capacity traits r = influence) := by
  unfold backlash_adjust
  exact ⟨fun h => if_pos h, fun h => if_neg h⟩

/-- Witness for the amended C6: both branches at concrete inputs. -/
theorem c6_backlash_flip_and_halve_witness :
    backlash_adjust 1 0.9 true 0.65 defaultTraits 0 = -(1 : ℝ) * 0.5
    ∧ backlash_adjust 1 0.5 true 0.65 defaultTraits 0 = 1 := by
  constructor
  · apply (c6_backlash_flip_and_halve 1 0.9 true 0.65 defaultTraits 0).1
    refine ⟨by norm_num, rfl, ?_⟩
    show (0 : ℝ) < 0.3 * 0.65 * (2 - defaultTraits.emotional_susceptibility)
    simp only [defaultTraits]
    norm_num
  · apply (c6_backlash_flip_and_halve 1 0.5 true 0.65 defaultTraits 0).2
    rintro ⟨h, -, -⟩
    norm_num at h

/-- SDParameters from sd_parameters.py (the fields the SD equations read). -/
structure SDParameters where
  initial_neutrals : ℝ
  fixed_contrarians : ℝ
  fixed_consensus : ℝ
  initial_arousal : ℝ
  initial_frame_adoption : ℝ
  contrarian_emotion : ℝ
  contrarian_provocativeness : ℝ
  contrarian_engagement_boost : ℝ
  consensus_emotion : ℝ
  consensus_provocativeness : ℝ
  consensus_engagement_boost : ℝ
  emotion_weight : ℝ
  provocative_weight : ℝ
  recency_weight : ℝ
  engagement_exponent : ℝ
  base_conversion_rate : ℝ
  arousal_amplifier : ℝ
  base_susceptibility : ℝ
  threshold_arousal : ℝ
  threshold_multiplier : ℝ
  threshold_smoothing : ℝ
  arousal_contagion_rate : ℝ
  arousal_decay_rate : ℝ
  max_arousal : ℝ
  frame_adoption_rate : ℝ
  frame_decay_rate : ℝ
  secondary_propagation : ℝ

/-- The calibrated defaults of SDParameters. -/
noncomputable def defaultSDParams : SDParameters :=
  ⟨20.0, 1.0, 4.0, 0.47, 0.0,
   0.58, 0.54, 1.3,
   0.04, 0.03, 1.0,
   0.4, 0.4, 0.2, 2.0,
   0.015, 2.5, 0.3,
   0.93, 4.0, 0.05,
   0.18, 0.012, 1.0,
   0.06, 0.008, 0.4⟩

/-- np.clip for scalars. -/
noncomputable def clip (x lo hi : ℝ) : ℝ := max lo (min x hi)

/-- visibility_contrarian from sd_equations.py. -/
noncomputable def visibility_contrarian (P : SDParameters) : ℝ :=
  (P.emotion_weight * P.contrarian_emotion +
   P.provocative_weight * P.contrarian_provocativeness) *
    P.contrarian_engagement_boost ^ P.engagement_exponent

/-- visibility_consensus from sd_equations.py. -/
noncomputable def visibility_consensus (P : SDParameters) : ℝ :=
  (P.emotion_weight * P.consensus_emotion +
   P.provocative_weight * P.consensus_provocativeness) *
    P.consensus_engagement_boost ^ P.engagement_exponent

/-- exposure_fractions from sd_equations.py. -/
noncomputable def exposure_fractions (C S F : ℝ) (P : SDParameters) : ℝ × ℝ :=
  let vis_c := visibility_contrarian P
  let vis_s := visibility_consensus P
  let pop_c := P.fixed_contrarians + C
  let pop_c_effective := pop_c * (1 + P.secondary_propagation * F)
  let pop_s := P.fixed_consensus + S
  let total_weighted := vis_c * pop_c_effective + vis_s * pop_s
  if total_weighted < 1e-10 then (0.5, 0.5)
  else (vis_c * pop_c_effective / total_weighted, vis_s * pop_s / total_weighted)

/-- The logistic smooth threshold from sd_equations.py, including the
np.clip(z, -50, 50) overflow guard. -/
noncomputable def smooth_threshold (x threshold smoothing : ℝ) : ℝ :=
  let z := (x - threshold) / smoothing
  let zc := clip z (-50) 50
  1 / (1 + Real.exp (-zc))

/-- susceptibility from sd_equations.py. -/
noncomputable def sd_susceptibility (arousal : ℝ) (P : SDParameters) : ℝ :=
  let base := P.base_susceptibility * (1 + P.arousal_amplifier * arousal)
  let threshold_effect := 1.0 + (P.threshold_multiplier - 1.0) *
    smooth_threshold arousal P.threshold_arousal P.threshold_smoothing
  base * threshold_effect

/-- arousal_increase_rate from sd_equations.py. -/
noncomputable def arousal_increase_rate (exposure_c arousal : ℝ) (P : SDParameters) : ℝ :=
  P.arousal_contagion_rate * exposure_c * P.contrarian_provocativeness *
    (P.max_arousal - arousal)

/-- arousal_decay_rate from sd_equations.py (the function, reading the
parameter field of the same name). -/
noncomputable def arousal_decay_rate (arousal : ℝ) (P : SDParameters) : ℝ :=
  P.arousal_decay_rate * arousal

/-- conversion_rate_to_contrarian from sd_equations.py. -/
noncomputable def conversion_rate_to_contrarian
    (neutrals exposure_c arousal : ℝ) (P : SDParameters) : ℝ :=
  P.base_conversion_rate * sd_susceptibility arousal P * exposure_c * neutrals

/-- conversion_rate_to_consensus from sd_equations.py. -/
noncomputable def conversion_rate_to_consensus
    (neutrals exposure_s arousal : ℝ) (P : SDParameters) : ℝ :=
  let arousal_penalty := 1.0 / (1.0 + P.arousal_amplifier * arousal)
  let sus := P.base_susceptibility * arousal_penalty
  P.base_conversion_rate * sus * exposure_s * neutrals

/-- frame_adoption_change from sd_equations.py. -/
noncomputable def frame_adoption_change (frame_adoption exposure_c : ℝ)
    (P : SDParameters) : ℝ :=
  let effective_exposure := exposure_c * (1 + P.secondary_propagation * frame_adoption)
  let adoption_rate := P.frame_adoption_rate * effective_exposure * (1 - frame_adoption)
  let decay_rate := P.frame_decay_rate * frame_adoption
  adoption_rate - decay_rate

/-- State vector [N, C, S, A, F] of OpinionDynamicsSD. -/
structure SDVec where
  n : ℝ
  c : ℝ
  s : ℝ
  a : ℝ
  f : ℝ

/-- OpinionDynamicsSD.derivatives from sd_model.py (the system is
autonomous; the time argument is unused, exactly as in the source). -/
noncomputable def sd_derivatives (P : SDParameters) (state : SDVec) (t : ℝ) : SDVec :=
  let N := max 0 state.n
  let C := max 0 state.c
  let S := max 0 state.s
  let A := clip state.a 0 P.max_arousal
  let F := clip state.f 0 1
  let ef := exposure_fractions C S F P
  let conv_to_c := conversion_rate_to_contrarian N ef.1 A P
  let conv_to_s := conversion_rate_to_consensus N ef.2 A P
  let total_conv := conv_to_c + conv_to_s
  let rescaled :=
    if total_conv > N ∧ N > 0 then
      (conv_to_c * (N / total_conv), conv_to_s * (N / total_conv))
    else (conv_to_c, conv_to_s)
  let arousal_up := arousal_increase_rate ef.1 A P
  let arousal_down := arousal_decay_rate A P
  let frame_change := frame_adoption_change F ef.1 P
  { n := -rescaled.1 - rescaled.2
    c := rescaled.1
    s := rescaled.2
    a := arousal_up - arousal_down
    f := frame_change }

/-- One exact-arithmetic Euler step of size h for the SD system. -/
noncomputable def euler_step (P : SDParameters) (h : ℝ) (v : SDVec) : SDVec :=
  let d := sd_derivatives P v 0
  ⟨v.n + h * d.n, v.c + h * d.c, v.s + h * d.s, v.a + h * d.a, v.f + h * d.f⟩

/-- k Euler steps of size h. -/
noncomputable def euler_iter (P : SDParameters) (h : ℝ) : ℕ → SDVec → SDVec
  | 0, v => v
  | k + 1, v => euler_iter P h k (euler_step P h v)

theorem sd_derivatives_sum_zero (P : SDParameters) (state : SDVec) (t : ℝ) :
    (sd_derivatives P state t).n + (sd_derivatives P state t).c +
      (sd_derivatives P state t).s = 0 := by
  simp only [sd_derivatives]
  split_ifs with h
  · ring
  · ring

theorem euler_step_conserves (P : SDParameters) (h : ℝ) (v : SDVec) :
    (euler_step P h v).n + (euler_step P h v).c + (euler_step P h v).s
      = v.n + v.c + v.s := by
  have hz := sd_derivatives_sum_zero P v 0
  have hz2 : h * (sd_derivatives P v 0).n + h * (sd_derivatives P v 0).c
      + h * (sd_derivatives P v 0).s = 0 := by
    have : h * ((sd_derivatives P v 0).n + (sd_derivatives P v 0).c
        + (sd_derivatives P v 0).s) = 0 := by
      rw [hz, mul_zero]
    linarith [this, mul_add h ((sd_derivatives P v 0).n + (sd_derivatives P v 0).c)
      ((sd_derivatives P v 0).s), mul_add h (sd_derivatives P v 0).n (sd_derivatives P v 0).c]
  simp only [euler_step]
  linarith [hz2]

theorem euler_iter_conserves (P : SDParameters) (h : ℝ) (k : ℕ) (v : SDVec) :
    (euler_iter P h k v).n + (euler_iter P h k v).c + (euler_iter P h k v).s
      = v.n + v.c + v.s := by
  induction k generalizing v with
  | zero => rfl
  | succ k ih =>
    rw [euler_iter]
    rw [ih (euler_step P h v)]
    exact euler_step_conserves P h v

/-- Claim C2: the SD derivatives satisfy dN + dC + dS = 0 exactly for every
state and time (also through the conversion-rescaling branch), and
consequently any exact Euler-integrated run starting from N=20, C=0, S=0
keeps N+C+S equal to 20 at every step, trivially within the 1% tolerance
checked by validate_conservation. -/
theorem c2_population_conservation :
    (∀ (P : SDParameters) (state : SDVec) (t : ℝ),
        (sd_derivatives P state t).n + (sd_derivatives P state t).c +
          (sd_derivatives P state t).s = 0)
    ∧ (∀ (h : ℝ) (k : ℕ) (a f : ℝ),
        (euler_iter defaultSDParams h k ⟨20, 0, 0, a, f⟩).n
          + (euler_iter defaultSDParams h k ⟨20, 0, 0, a, f⟩).c
          + (euler_iter defaultSDParams h k ⟨20, 0, 0, a, f⟩).s = 20
        ∧ |(euler_iter defaultSDParams h k ⟨20, 0, 0, a, f⟩).n
            + (euler_iter defaultSDParams h k ⟨20, 0, 0, a, f⟩).c
            + (euler_iter defaultSDParams h k ⟨20, 0, 0, a, f⟩).s - 20| ≤ 0.2) := by
  refine ⟨sd_derivatives_sum_zero, fun h k a f => ?_⟩
  have hc := euler_iter_conserves defaultSDParams h k ⟨20, 0, 0, a, f⟩
  have hc20 : (euler_iter defaultSDParams h k ⟨20, 0, 0, a, f⟩).n
      + (euler_iter defaultSDParams h k ⟨20, 0, 0, a, f⟩).c
      + (euler_iter defaultSDParams h k ⟨20, 0, 0, a, f⟩).s = 20 := by
    rw [hc]
    norm_num
  refine ⟨hc20, ?_⟩
  rw [hc20]
  norm_num

theorem exp_point_three_ge : (1.3 : ℝ) ≤ Real.exp 0.3 := by
  have h := Real.add_one_le_exp (0.3 : ℝ)
  linarith

theorem exp_one_two_ge : (2.8561 : ℝ) ≤ Real.exp 1.2 := by
  rw [show (1.2 : ℝ) = (4 : ℕ) * 0.3 by norm_num, Real.exp_nat_mul]
  calc (2.8561 : ℝ) = 1.3 ^ 4 := by norm_num
    _ ≤ Real.exp 0.3 ^ 4 := pow_le_pow_left₀ (by norm_num) exp_point_three_ge 4

theorem exp_point_two_le : Real.exp 0.2 ≤ 1.25 := by
  have h := Real.add_one_le_exp (-0.2 : ℝ)
  have h8 : (0.8 : ℝ) ≤ Real.exp (-0.2) := by linarith
  have hinv : Real.exp 0.2 = (Real.exp (-0.2))⁻¹ := by
    rw [← Real.exp_neg]
    norm_num
  rw [hinv]
  calc (Real.exp (-0.2))⁻¹ ≤ (0.8 : ℝ)⁻¹ := inv_anti₀ (by norm_num) h8
    _ = 1.25 := by norm_num

theorem exp_one_two_le : Real.exp 1.2 ≤ 3.398 := by
  have h1 : Real.exp 1.2 = Real.exp 1 * Real.exp 0.2 := by
    rw [← Real.exp_add]
    norm_num
  rw [h1]
  have he1 : Real.exp 1 ≤ 2.7182818286 := le_of_lt Real.exp_one_lt_d9
  have he2 := exp_point_two_le
  nlinarith [Real.exp_pos (1 : ℝ), Real.exp_pos (0.2 : ℝ)]

theorem exp_eight_six_ge : (2824 : ℝ) ≤ Real.exp 8.6 := by
  have h8 : Real.exp 8 ≤ Real.exp 8.6 := Real.exp_le_exp.mpr (by norm_num)
  have h1 : Real.exp 8 = Real.exp 1 ^ (8 : ℕ) := by
    rw [show (8 : ℝ) = (8 : ℕ) * 1 by norm_num, Real.exp_nat_mul]
  have hg : (2.7182818283 : ℝ) < Real.exp 1 := Real.exp_one_gt_d9
  calc (2824 : ℝ) ≤ 2.7 ^ (8 : ℕ) := by norm_num
    _ ≤ Real.exp 1 ^ (8 : ℕ) := pow_le_pow_left₀ (by norm_num) (by linarith) 8
    _ = Real.exp 8 := h1.symm
    _ ≤ Real.exp 8.6 := h8

theorem sigmoid_12_bounds :
    (0.74 : ℝ) ≤ 1 / (1 + Real.exp (-1.2)) ∧ 1 / (1 + Real.exp (-1.2)) ≤ 0.7727 := by
  have hpos : (0 : ℝ) < Real.exp 1.2 := Real.exp_pos _
  have hneg : Real.exp (-1.2) = (Real.exp 1.2)⁻¹ := by
    rw [← Real.exp_neg]
  have h1 : Real.exp (-1.2) ≤ (2.8561 : ℝ)⁻¹ := by
    rw [hneg]
    exact inv_anti₀ (by norm_num) exp_one_two_ge
  have h2 : (3.398 : ℝ)⁻¹ ≤ Real.exp (-1.2) := by
    rw [hneg]
    exact inv_anti₀ hpos exp_one_two_le
  have hd : (0 : ℝ) < 1 + Real.exp (-1.2) := by positivity
  have h1' : Real.exp (-1.2) ≤ 0.3502 := by
    calc Real.exp (-1.2) ≤ (2.8561 : ℝ)⁻¹ := h1
      _ ≤ 0.3502 := by norm_num
  have h2' : (0.2942 : ℝ) ≤ Real.exp (-1.2) := by
    calc (0.2942 : ℝ) ≤ (3.398 : ℝ)⁻¹ := by norm_num
      _ ≤ Real.exp (-1.2) := h2
  constructor
  · rw [le_div_iff₀ hd]
    nlinarith [h1']
  · rw [div_le_iff₀ hd]
    nlinarith [h2']

theorem sigmoid_m86_bounds :
    (0 : ℝ) < 1 / (1 + Real.exp 8.6) ∧ 1 / (1 + Real.exp 8.6) ≤ 0.00036 := by
  have h := exp_eight_six_ge
  have hd : (0 : ℝ) < 1 + Real.exp 8.6 := by positivity
  constructor
  · positivity
  · rw [div_le_iff₀ hd]
    nlinarith [h]

theorem smooth_threshold_at_099 :
    smooth_threshold 0.99 defaultSDParams.threshold_arousal
      defaultSDParams.threshold_smoothing = 1 / (1 + Real.exp (-1.2)) := by
  unfold smooth_threshold clip
  simp only [defaultSDParams]
  norm_num [min_def, max_def]

theorem smooth_threshold_at_05 :
    smooth_threshold 0.5 defaultSDParams.threshold_arousal
      defaultSDParams.threshold_smoothing = 1 / (1 + Real.exp 8.6) := by
  unfold smooth_threshold clip
  simp only [defaultSDParams]
  norm_num [min_def, max_def]

theorem sd_susceptibility_at_099 :
    sd_susceptibility 0.99 defaultSDParams =
      0.3 * (1 + 2.5 * 0.99) * (1 + 3 * (1 / (1 + Real.exp (-1.2)))) := by
  unfold sd_susceptibility
  rw [smooth_threshold_at_099]
  simp only [defaultSDParams]
  norm_num

theorem sd_susceptibility_at_05 :
    sd_susceptibility 0.5 defaultSDParams =
      0.3 * (1 + 2.5 * 0.5) * (1 + 3 * (1 / (1 + Real.exp 8.6))) := by
  unfold sd_susceptibility
  rw [smooth_threshold_at_05]
  simp only [defaultSDParams]
  norm_num

/-- Claim C5 counterexample: with the default parameters
(threshold_arousal = 0.93, threshold_multiplier = 4.0,
threshold_smoothing = 0.05), susceptibility at arousal 0.99 is strictly
below 85% of base*(1+amp*0.99)*4.0 — the sigmoid argument is only
(0.99-0.93)/0.05 = 1.2, so the threshold term is about 3.31, not
saturated at 4.0; the value is more than 15% away from the claimed one. -/
theorem c5_counterexample :
    sd_susceptibility 0.99 defaultSDParams <
      0.85 * (defaultSDParams.base_susceptibility *
        (1 + defaultSDParams.arousal_amplifier * 0.99) *
        defaultSDParams.threshold_multiplier) := by
  rw [sd_susceptibility_at_099]
  simp only [defaultSDParams]
  have hs := sigmoid_12_bounds
  nlinarith [hs.1, hs.2]

/-- Claim C5 amended: susceptibility equals
base_susceptibility*(1+arousal_amplifier*arousal) times the smooth-sigmoid
threshold term.  At arousal 0.99 with the defaults, the threshold term is
NOT saturated: the value lies between 3.2 and 3.4 times the linear part
(about 3.31x, not 4.0x).  At arousal 0.5 the sigmoid does saturate toward
0, and the value is within 1% of the un-multiplied linear part. -/
theorem c5_threshold_saturation_amended :
    (∀ (a : ℝ) (P : SDParameters),
        sd_susceptibility a P =
          P.base_susceptibility * (1 + P.arousal_amplifier * a) *
            (1.0 + (P.threshold_multiplier - 1.0) *
              smooth_threshold a P.threshold_arousal P.threshold_smoothing))
    ∧ (3.2 * (0.3 * (1 + 2.5 * 0.99)) ≤ sd_susceptibility 0.99 defaultSDParams
        ∧ sd_susceptibility 0.99 defaultSDParams ≤ 3.4 * (0.3 * (1 + 2.5 * 0.99)))
    ∧ (0.3 * (1 + 2.5 * 0.5) ≤ sd_susceptibility 0.5 defaultSDParams
        ∧ sd_susceptibility 0.5 defaultSDParams ≤ 1.01 * (0.3 * (1 + 2.5 * 0.5))) := by
  refine ⟨fun a P => rfl, ?_, ?_⟩
  · rw [sd_susceptibility_at_099]
    have hs := sigmoid_12_bounds
    constructor
    · nlinarith [hs.1]
    · nlinarith [hs.2]
  · rw [sd_susceptibility_at_05]
    have hs := sigmoid_m86_bounds
    constructor
    · nlinarith [hs.1]
    · nlinarith [hs.2]

/-- The in-place visibility assignment loop of rank_feed
(amplification.py line 84-85): `for post in posts: post.visibility_score =
self.compute_visibility(post, current_round)`, drawing one noise value per
post in order; `i` is the index of the next noise draw. -/
noncomputable def assign_visibility (w : AmpWeights) (noise : ℕ → ℝ) (current_round : ℕ) :
    ℕ → List Post → List Post
  | _, [] => []
  | i, p :: rest =>
    { p with visibility_score := compute_visibility w (noise i) p current_round } ::
      assign_visibility w noise current_round (i + 1) rest

/-- Stable descending insertion by visibility_score: an element is placed
before the first entry whose score is at most its own, so earlier posts
stay before later posts with an equal score, matching Python's stable
sorted(..., reverse=True). -/
noncomputable def insert_desc (p : Post) : List Post → List Post
  | [] => [p]
  | q :: rest =>
    if q.visibility_score ≤ p.visibility_score then p :: q :: rest
    else q :: insert_desc p rest

/-- Stable sort by descending visibility_score. -/
noncomputable def sort_desc : List Post → List Post
  | [] => []
  | p :: rest => insert_desc p (sort_desc rest)

/-- rank_feed from amplification.py: assign fresh visibility scores to all
posts, then return them sorted by visibility, highest first. -/
noncomputable def rank_feed (w : AmpWeights) (noise : ℕ → ℝ) (posts : List Post)
    (current_round : ℕ) : List Post :=
  sort_desc (assign_visibility w noise current_round 0 posts)

/-- The inner cumulative-sum scan of sample_visible_posts
(amplification.py lines 129-135): take the first entry with
r ≤ cumsum and pop it from the remaining list. -/
noncomputable def pick_weighted (r : ℝ) : ℝ → List (Post × ℝ) → Option (Post × List (Post × ℝ))
  | _, [] => none
  | cumsum, e :: rest =>
    if r ≤ cumsum + e.2 then some (e.1, rest)
    else
      match pick_weighted r (cumsum + e.2) rest with
      | none => none
      | some (q, rest') => some (q, e :: rest')

/-- The outer selection loop of sample_visible_posts (amplification.py
lines 123-135): one iteration per slot, each drawing rand k (Python's
random.random()), halting early when the total remaining weight is not
positive. -/
noncomputable def sample_loop (rand : ℕ → ℝ) : ℕ → ℕ → List (Post × ℝ) → List Post
  | 0, _, _ => []
  | fuel + 1, k, remaining =>
    if (remaining.map Prod.snd).sum ≤ 0 then []
    else
      match pick_weighted (rand k * (remaining.map Prod.snd).sum) 0 remaining with
      | none => sample_loop rand fuel (k + 1) remaining
      | some (p, rest) => p :: sample_loop rand fuel (k + 1) rest

/-- sample_visible_posts from amplification.py. -/
noncomputable def sample_visible_posts (w : AmpWeights) (noise rand : ℕ → ℝ)
    (posts : List Post) (current_round sample_size : ℕ) : List Post :=
  if posts.isEmpty then []
  else if posts.length ≤ sample_size then posts
  else
    let ranked := rank_feed w noise posts current_round
    let weighted := ranked.map fun p => (p, p.visibility_score + 0.1)
    sample_loop rand (min sample_size weighted.length) 0 weighted

/-- The contents of the global post list after a sample_visible_posts call:
the early-return branches leave every stored visibility_score untouched;
only the sampling branch lets rank_feed reassign the scores of the shared
Post objects. -/
noncomputable def posts_after_sampling (w : AmpWeights) (noise : ℕ → ℝ)
    (posts : List Post) (current_round sample_size : ℕ) : List Post :=
  if posts.isEmpty then posts
  else if posts.length ≤ sample_size then posts
  else assign_visibility w noise current_round 0 posts

theorem compute_visibility_ignores_stored_score (w : AmpWeights) (ν : ℝ) (q : Post)
    (x : ℝ) (current_round : ℕ) :
    compute_visibility w ν { q with visibility_score := x } current_round =
      compute_visibility w ν q current_round := rfl

theorem assign_visibility_ids (w : AmpWeights) (noise : ℕ → ℝ) (current_round : ℕ) :
    ∀ (i : ℕ) (l : List Post),
      (assign_visibility w noise current_round i l).map Post.id = l.map Post.id := by
  intro i l
  induction l generalizing i with
  | nil => rfl
  | cons p rest ih =>
    rw [assign_visibility]
    simp only [List.map_cons]
    rw [ih (i + 1)]

theorem assign_visibility_length (w : AmpWeights) (noise : ℕ → ℝ) (current_round : ℕ) :
    ∀ (i : ℕ) (l : List Post),
      (assign_visibility w noise current_round i l).length = l.length := by
  intro i l
  induction l generalizing i with
  | nil => rfl
  | cons p rest ih =>
    rw [assign_visibility]
    simp only [List.length_cons]
    rw [ih (i + 1)]

theorem assign_visibility_mem (w : AmpWeights) (noise : ℕ → ℝ) (current_round : ℕ) :
    ∀ (i : ℕ) (l : List Post) (p : Post),
      p ∈ assign_visibility w noise current_round i l →
      ∃ (q : Post) (j : ℕ), q ∈ l ∧
        p = { q with visibility_score := compute_visibility w (noise j) q current_round } := by
  intro i l
  induction l generalizing i with
  | nil =>
    intro p h
    rw [assign_visibility] at h
    exact absurd h (List.not_mem_nil p)
  | cons q rest ih =>
    intro p h
    rw [assign_visibility] at h
    rcases List.mem_cons.mp h with h1 | h1
    · exact ⟨q, i, List.mem_cons_self q rest, h1⟩
    · obtain ⟨q', j, hq', hp⟩ := ih (i + 1) p h1
      exact ⟨q', j, List.mem_cons_of_mem q hq', hp⟩

theorem insert_desc_perm (p : Post) (l : List Post) :
    List.Perm (insert_desc p l) (p :: l) := by
  induction l with
  | nil => exact List.Perm.refl _
  | cons q rest ih =>
    rw [insert_desc]
    split_ifs with h
    · exact List.Perm.refl _
    · exact (List.Perm.cons q ih).trans (List.Perm.swap p q rest)

theorem sort_desc_perm (l : List Post) : List.Perm (sort_desc l) l := by
  induction l with
  | nil => exact List.Perm.refl _
  | cons p rest ih =>
    rw [sort_desc]
    exact (insert_desc_perm p (sort_desc rest)).trans (List.Perm.cons p ih)

theorem rank_feed_ids_perm (w : AmpWeights) (noise : ℕ → ℝ) (posts : List Post)
    (current_round : ℕ) :
    List.Perm ((rank_feed w noise posts current_round).map Post.id)
      (posts.map Post.id) := by
  unfold rank_feed
  have h1 := (sort_desc_perm (assign_visibility w noise current_round 0 posts)).map Post.id
  rw [assign_visibility_ids w noise current_round 0 posts] at h1
  exact h1

theorem rank_feed_length (w : AmpWeights) (noise : ℕ → ℝ) (posts : List Post)
    (current_round : ℕ) :
    (rank_feed w noise posts current_round).length = posts.length := by
  unfold rank_feed
  rw [(sort_desc_perm (assign_visibility w noise current_round 0 posts)).length_eq,
    assign_visibility_length]

theorem pick_weighted_perm (r : ℝ) :
    ∀ (c : ℝ) (l : List (Post × ℝ)) (p : Post) (rest : List (Post × ℝ)),
      pick_weighted r c l = some (p, rest) →
        List.Perm (l.map Prod.fst) (p :: rest.map Prod.fst) := by
  intro c l
  induction l generalizing c with
  | nil =>
    intro p rest h
    rw [pick_weighted] at h
    exact absurd h (by simp)
  | cons e tl ih =>
    intro p rest h
    rw [pick_weighted] at h
    split_ifs at h with hcond
    · obtain ⟨h1, h2⟩ := Prod.ext_iff.mp (Option.some.inj h)
      subst h1
      subst h2
      exact List.Perm.refl _
    · rcases hrec : pick_weighted r (c + e.2) tl with - | qrest
      · rw [hrec] at h
        exact absurd h (by simp)
      · rw [hrec] at h
        obtain ⟨q, rest'⟩ := qrest
        obtain ⟨h1, h2⟩ := Prod.ext_iff.mp (Option.some.inj h)
        subst h1
        subst h2
        have hperm := ih (c + e.2) q rest' hrec
        have step1 : List.Perm ((e :: tl).map Prod.fst)
            (e.1 :: q :: rest'.map Prod.fst) := List.Perm.cons e.1 hperm
        exact step1.trans (List.Perm.swap q e.1 (rest'.map Prod.fst))

theorem sample_loop_halt (rand : ℕ → ℝ) (fuel k : ℕ) (rem : List (Post × ℝ))
    (h : (rem.map Prod.snd).sum ≤ 0) :
    sample_loop rand (fuel + 1) k rem = [] := by
  rw [sample_loop, if_pos h]

theorem sample_loop_none (rand : ℕ → ℝ) (fuel k : ℕ) (rem : List (Post × ℝ))
    (h : ¬(rem.map Prod.snd).sum ≤ 0)
    (hp : pick_weighted (rand k * (rem.map Prod.snd).sum) 0 rem = none) :
    sample_loop rand (fuel + 1) k rem = sample_loop rand fuel (k + 1) rem := by
  rw [sample_loop, if_neg h, hp]

theorem sample_loop_some (rand : ℕ → ℝ) (fuel k : ℕ) (rem rest : List (Post × ℝ))
    (p : Post) (h : ¬(rem.map Prod.snd).sum ≤ 0)
    (hp : pick_weighted (rand k * (rem.map Prod.snd).sum) 0 rem = some (p, rest)) :
    sample_loop rand (fuel + 1) k rem = p :: sample_loop rand fuel (k + 1) rest := by
  rw [sample_loop, if_neg h, hp]

theorem sample_loop_length (rand : ℕ → ℝ) :
    ∀ (fuel k : ℕ) (rem : List (Post × ℝ)),
      (sample_loop rand fuel k rem).length ≤ fuel := by
  intro fuel
  induction fuel with
  | zero =>
    intro k rem
    exact Nat.le_refl 0
  | succ fuel ih =>
    intro k rem
    rcases le_or_lt ((rem.map Prod.snd).sum) 0 with h | h
    · rw [sample_loop_halt rand fuel k rem h]
      exact Nat.zero_le _
    · rcases hp : pick_weighted (rand k * (rem.map Prod.snd).sum) 0 rem with - | pr
      · rw [sample_loop_none rand fuel k rem (not_le.mpr h) hp]
        exact Nat.le_succ_of_le (ih (k + 1) rem)
      · obtain ⟨p, rest⟩ := pr
        rw [sample_loop_some rand fuel k rem rest p (not_le.mpr h) hp]
        simpa using Nat.succ_le_succ (ih (k + 1) rest)

theorem sample_loop_ids_subperm (rand : ℕ → ℝ) :
    ∀ (fuel k : ℕ) (rem : List (Post × ℝ)),
      List.Subperm ((sample_loop rand fuel k rem).map Post.id)
        (rem.map fun x => x.1.id) := by
  intro fuel
  induction fuel with
  | zero =>
    intro k rem
    exact List.nil_subperm
  | succ fuel ih =>
    intro k rem
    rcases le_or_lt ((rem.map Prod.snd).sum) 0 with h | h
    · rw [sample_loop_halt rand fuel k rem h]
      exact List.nil_subperm
    · rcases hp : pick_weighted (rand k * (rem.map Prod.snd).sum) 0 rem with - | pr
      · rw [sample_loop_none rand fuel k rem (not_le.mpr h) hp]
        exact ih (k + 1) rem
      · obtain ⟨p, rest⟩ := pr
        rw [sample_loop_some rand fuel k rem rest p (not_le.mpr h) hp]
        have hperm := pick_weighted_perm _ _ _ _ _ hp
        have hmap : List.Perm (rem.map fun x => x.1.id)
            (p.id :: (rest.map fun x => x.1.id)) := by
          have h2 := hperm.map Post.id
          simpa [List.map_map, Function.comp] using h2
        have hsub := ih (k + 1) rest
        have hcons : List.Subperm (p.id :: (sample_loop rand fuel (k + 1) rest).map Post.id)
            (p.id :: rest.map fun x => x.1.id) := (List.subperm_cons _).mpr hsub
        have hfinal := hcons.trans hmap.symm.subperm
        simpa using hfinal

theorem subperm_nodup {α : Type} {l₁ l₂ : List α} (h : List.Subperm l₁ l₂)
    (hn : l₂.Nodup) : l₁.Nodup := by
  obtain ⟨l, hperm, hsub⟩ := h
  exact hperm.nodup_iff.mp (hn.sublist hsub)

/-- Claim C8: sample_visible_posts returns all posts when there are at most
sample_size of them; otherwise it selects pairwise-distinct posts (no post
object twice), never more than min(sample_size, len(posts)), by weighted
sampling without replacement with weight visibility_score + 0.1, and the
loop halts immediately when the total remaining weight is not positive. -/
theorem c8_sampling_without_replacement (w : AmpWeights) (noise rand : ℕ → ℝ)
    (posts : List Post) (current_round sample_size : ℕ) :
    (posts.length ≤ sample_size →
        sample_visible_posts w noise rand posts current_round sample_size = posts)
    ∧ ((posts.map Post.id).Nodup →
        ((sample_visible_posts w noise rand posts current_round sample_size).map
          Post.id).Nodup)
    ∧ (sample_visible_posts w noise rand posts current_round sample_size).length ≤
        min sample_size posts.length
    ∧ (∀ (fuel k : ℕ) (rem : List (Post × ℝ)), (rem.map Prod.snd).sum ≤ 0 →
        sample_loop rand (fuel + 1) k rem = []) := by
  have hbranch : posts.length ≤ sample_size →
      sample_visible_posts w noise rand posts current_round sample_size = posts := by
    intro hle
    rcases posts with - | ⟨p, rest⟩
    · simp [sample_visible_posts]
    · unfold sample_visible_posts
      rw [if_neg (show ¬((p :: rest).isEmpty = true) by simp), if_pos hle]
  have hfalse : sample_size < posts.length → posts.isEmpty = false := by
    intro hgt
    cases posts with
    | nil => simp at hgt
    | cons a l => rfl
  refine ⟨hbranch, ?_, ?_, fun fuel k rem h => sample_loop_halt rand fuel k rem h⟩
  · intro hnodup
    rcases le_or_lt posts.length sample_size with hle | hgt
    · rw [hbranch hle]
      exact hnodup
    · unfold sample_visible_posts
      rw [if_neg (show ¬(posts.isEmpty = true) by rw [hfalse hgt]; simp),
        if_neg (not_le.mpr hgt)]
      have hsub := sample_loop_ids_subperm rand
        (min sample_size ((rank_feed w noise posts current_round).map
          (fun p => (p, p.visibility_score + 0.1))).length) 0
        ((rank_feed w noise posts current_round).map
          (fun p => (p, p.visibility_score + 0.1)))
      apply subperm_nodup hsub
      have hids : (((rank_feed w noise posts current_round).map
          (fun p => (p, p.visibility_score + 0.1))).map fun x => x.1.id)
          = (rank_feed w noise posts current_round).map Post.id := by
        rw [List.map_map]
        rfl
      rw [hids]
      exact ((rank_feed_ids_perm w noise posts current_round).nodup_iff).mpr hnodup
  · rcases le_or_lt posts.length sample_size with hle | hgt
    · rw [hbranch hle]
      omega
    · unfold sample_visible_posts
      rw [if_neg (show ¬(posts.isEmpty = true) by rw [hfalse hgt]; simp),
        if_neg (not_le.mpr hgt)]
      have hlen := sample_loop_length rand
        (min sample_size ((rank_feed w noise posts current_round).map
          (fun p => (p, p.visibility_score + 0.1))).length) 0
        ((rank_feed w noise posts current_round).map
          (fun p => (p, p.visibility_score + 0.1)))
      have heq : ((rank_feed w noise posts current_round).map
          (fun p => (p, p.visibility_score + 0.1))).length = posts.length := by
        rw [List.length_map, rank_feed_length]
      exact hlen.trans_eq (congrArg (fun x => min sample_size x) heq)

/-- Witness for C8 at a concrete two-post list with sample_size 5. -/
theorem c8_sampling_without_replacement_witness :
    sample_visible_posts defaultWeights (fun _ => 1) (fun _ => 0.5)
        [⟨0, 1, 0.5, 0.5, 0.5, 0.5, 0⟩, ⟨1, 1, 0.2, 0.3, 0.5, 0.5, 0⟩] 2 5 =
      [⟨0, 1, 0.5, 0.5, 0.5, 0.5, 0⟩, ⟨1, 1, 0.2, 0.3, 0.5, 0.5, 0⟩]
    ∧ ((sample_visible_posts defaultWeights (fun _ => 1) (fun _ => 0.5)
        [⟨0, 1, 0.5, 0.5, 0.5, 0.5, 0⟩, ⟨1, 1, 0.2, 0.3, 0.5, 0.5, 0⟩] 2 5).map
          Post.id).Nodup := by
  obtain ⟨h1, h2, -, -⟩ := c8_sampling_without_replacement defaultWeights
    (fun _ => 1) (fun _ => 0.5)
    [⟨0, 1, 0.5, 0.5, 0.5, 0.5, 0⟩, ⟨1, 1, 0.2, 0.3, 0.5, 0.5, 0⟩] 2 5
  refine ⟨h1 (by simp), h2 (by simp)⟩

/-- Claim C9 counterexample: when the global list holds at most sample_size
posts (every early round), sample_visible_posts returns them without any
visibility recomputation: the distributed post keeps its never-assigned
score 0 although compute_visibility is strictly positive for it, so the
round observes a stale score. -/
theorem c9_counterexample :
    posts_after_sampling defaultWeights (fun _ => 1) [⟨0, 1, 1, 0, 0.5, 0.5, 0⟩] 1 10 =
      [⟨0, 1, 1, 0, 0.5, 0.5, 0⟩]
    ∧ (⟨0, 1, 1, 0, 0.5, 0.5, 0⟩ : Post).visibility_score = 0
    ∧ 0 < compute_visibility defaultWeights 1 ⟨0, 1, 1, 0, 0.5, 0.5, 0⟩ 1
    ∧ (⟨0, 1, 1, 0, 0.5, 0.5, 0⟩ : Post).visibility_score ≠
        compute_visibility defaultWeights 1 ⟨0, 1, 1, 0, 0.5, 0.5, 0⟩ 1 := by
  have hvis : compute_visibility defaultWeights 1 ⟨0, 1, 1, 0, 0.5, 0.5, 0⟩ 1 =
      0.6 * (1 + 0.5 ^ 2 * 0.6) * 1 := by
    rw [compute_visibility_def]
    simp only [defaultWeights, engagement_potential]
    norm_num
  refine ⟨?_, rfl, ?_, ?_⟩
  · unfold posts_after_sampling
    rw [if_neg (show ¬(([⟨0, 1, 1, 0, 0.5, 0.5, 0⟩] : List Post).isEmpty = true) by simp),
      if_pos (show ([⟨0, 1, 1, 0, 0.5, 0.5, 0⟩] : List Post).length ≤ 10 by simp)]
  · rw [hvis]
    norm_num
  · rw [hvis]
    norm_num

/-- Claim C9 amended: the visibility of every post in the global list is
recomputed (via compute_visibility for the current round) only when the
list is strictly longer than the sample size; otherwise the posts are
distributed with their stored, possibly stale or never-assigned,
visibility_score. -/
theorem c9_visibility_recompute_amended (w : AmpWeights) (noise : ℕ → ℝ)
    (posts : List Post) (current_round sample_size : ℕ) :
    (posts.length ≤ sample_size →
        posts_after_sampling w noise posts current_round sample_size = posts)
    ∧ (sample_size < posts.length →
        ∀ p ∈ posts_after_sampling w noise posts current_round sample_size,
          ∃ j : ℕ, p.visibility_score = compute_visibility w (noise j) p current_round) := by
  constructor
  · intro hle
    rcases posts with - | ⟨q, rest⟩
    · simp [posts_after_sampling]
    · unfold posts_after_sampling
      rw [if_neg (show ¬((q :: rest).isEmpty = true) by simp), if_pos hle]
  · intro hgt p hp
    have hfalse : posts.isEmpty = false := by
      cases posts with
      | nil => simp at hgt
      | cons a l => rfl
    unfold posts_after_sampling at hp
    rw [if_neg (show ¬(posts.isEmpty = true) by rw [hfalse]; simp),
      if_neg (not_le.mpr hgt)] at hp
    obtain ⟨q, j, -, hpq⟩ := assign_visibility_mem w noise current_round 0 posts p hp
    refine ⟨j, ?_⟩
    rw [hpq]
    exact (compute_visibility_ignores_stored_score w (noise j) q _ current_round).symm

/-- Witness for the amended C9: both branches at concrete inputs. -/
theorem c9_visibility_recompute_amended_witness :
    posts_after_sampling defaultWeights (fun _ => 1) [⟨0, 1, 1, 0, 0.5, 0.5, 0⟩] 1 10 =
      [⟨0, 1, 1, 0, 0.5, 0.5, 0⟩]
    ∧ (∀ p ∈ posts_after_sampling defaultWeights (fun _ => 1)
          [⟨0, 1, 1, 0, 0.5, 0.5, 0⟩, ⟨1, 1, 0.5, 0.5, 0.5, 0.5, 0⟩] 1 1,
        ∃ j : ℕ, p.visibility_score =
          compute_visibility defaultWeights ((fun _ => (1 : ℝ)) j) p 1) := by
  constructor
  · exact (c9_visibility_recompute_amended defaultWeights (fun _ => 1)
      [⟨0, 1, 1, 0, 0.5, 0.5, 0⟩] 1 10).1 (by simp)
  · exact (c9_visibility_recompute_amended defaultWeights (fun _ => 1)
      [⟨0, 1, 1, 0, 0.5, 0.5, 0⟩, ⟨1, 1, 0.5, 0.5, 0.5, 0.5, 0⟩] 1 1).2 (by simp)

end OpinionDynamics
